import Mathlib

/-!
Verification of the reflexible repository's region-mapping code
(`reflexible/mapping.py`, function `map_regions`) and of the spec of its
FLEXPART binary-to-netCDF conversion core (whose sources are exercised by
`reflexible/tests/test_conv2netcdf4.py`).

Python dictionaries are embedded as association lists with insertion
order, unique keys being the caller's responsibility exactly as in
Python; `dict.update`, `dict.pop` and iteration order are modelled
faithfully.  The process environment and the file system, which
`map_regions` reads ambiently, become explicit parameters of the
embedded function.
-/

/-- A YAML value as it appears in the mapping database: strings,
integers, decimal literals (mantissa and power-of-ten denominator
exponent, e.g. `dec 5 2` for 0.05), and lists of decimals (the only
list shape the database's defaults use).  No claim inspects the payload
of a value, so this covers the database faithfully. -/
inductive Value where
  | s : String → Value
  | i : Int → Value
  | dec : Int → Nat → Value
  | arr : List (Int × Nat) → Value
deriving DecidableEq

instance {ε α : Type} [DecidableEq ε] [DecidableEq α] :
    DecidableEq (Except ε α) := fun x y =>
  match x, y with
  | Except.ok a, Except.ok b =>
    if h : a = b then isTrue (by rw [h]) else
      isFalse (fun hh => h (Except.ok.injEq a b ▸ hh))
  | Except.ok _, Except.error _ => isFalse (fun hh => Except.noConfusion hh)
  | Except.error _, Except.ok _ => isFalse (fun hh => Except.noConfusion hh)
  | Except.error a, Except.error b =>
    if h : a = b then isTrue (by rw [h]) else
      isFalse (fun hh => h (Except.error.injEq a b ▸ hh))

/-- A Python dict with `String` keys, as an insertion-ordered association
list with unique keys. -/
abbrev PyDict (V : Type) : Type := List (String × V)

/-- `d[k]` lookup: the first (hence, for a well-formed dict, the only)
binding of `k`. -/
def dictGet {V : Type} (d : PyDict V) (k : String) : Option V :=
  (d.find? (fun p => p.1 == k)).map (fun p => p.2)

/-- `d[k] = v` assignment: replace the value in place when the key is
present, append the binding otherwise (Python dict insertion order). -/
def setItem {V : Type} : PyDict V → String → V → PyDict V
  | [], k, v => [(k, v)]
  | p :: d, k, v => if p.1 = k then (k, v) :: d else p :: setItem d k v

/-- `d.update(e)`: fold `setItem` over the entries of `e` in order. -/
def dictUpdate {V : Type} (d e : PyDict V) : PyDict V :=
  e.foldl (fun acc p => setItem acc p.1 p.2) d

/-- `d.pop(k, None)`'s effect on the dict: remove the binding of `k`. -/
def dictPop {V : Type} : PyDict V → String → PyDict V
  | [], _ => []
  | p :: d, k => if p.1 = k then dictPop d k else p :: dictPop d k

/-- Python's `\s` on the ASCII range, as used by `re.split(r',\s*', ...)`. -/
def isPyWs (c : Char) : Bool :=
  c = ' ' || c = '\t' || c = '\n' || c = '\r' || c = '\x0b' || c = '\x0c'

/-- `re.split(r',\s*', s)` on a list of characters: split at every
comma, the comma together with the maximal whitespace run after it
being the delimiter.  The `skipping` flag records that the scanner is
inside the whitespace run following a comma. -/
def splitAliasAux : List Char → Bool → List Char → List (List Char)
  | [], _, acc => [acc.reverse]
  | c :: cs, skipping, acc =>
    if skipping && isPyWs c then splitAliasAux cs true acc
    else if c = ',' then acc.reverse :: splitAliasAux cs true []
    else splitAliasAux cs false (c :: acc)

/-- `re.split(r',\s*', s)` on strings. -/
def splitAlias (s : String) : List String :=
  (splitAliasAux s.toList false []).map (fun l => String.mk l)

/-- One region entry of the mapping database: the optional
comma-separated `alias` string, the `map_par` dict (always present, per
the code), and the optional `fig_par` dict. -/
structure Region where
  alias? : Option String
  map_par : PyDict Value
  fig_par : Option (PyDict Value)
deriving DecidableEq

/-- The mapping database: an insertion-ordered dict from region name to
region entry, as loaded from a YAML file. -/
abbrev MapDB : Type := List (String × Region)

/-- The process environment: variable name to value. -/
abbrev Env : Type := List (String × String)

/-- The file system visible to `map_regions`: path to parsed YAML
database for the files that exist and parse. -/
abbrev FileSys : Type := List (String × MapDB)

/-- The ways the embedded `map_regions` can fail: `keyError` for the
`KeyError("region ... not found")` raise, `ioError` for a failing
`open` of the file named by `REFLEXIBLE_MAPDB`. -/
inductive MapError where
  | keyError : String → MapError
  | ioError : String → MapError
deriving DecidableEq

/-- The default `map_par_` structure: `Structure(anchor='C')`. -/
def initial_map_par : PyDict Value := [("anchor", Value.s "C")]

/-- The default `fig_par_` structure: `figsize=[8, 7]`,
`axlocs=[0.05, 0.01, .8, .9]`. -/
def initial_fig_par : PyDict Value :=
  [("figsize", Value.arr [(8, 0), (7, 0)]),
   ("axlocs", Value.arr [(5, 2), (1, 2), (8, 1), (9, 1)])]

/-- Database resolution step of `map_regions`: start from the package
database `base` (the parsed `mapping_db.yml`), and when the environment
defines `REFLEXIBLE_MAPDB`, `update` it with the parsed content of the
file that variable points to. -/
def resolveDB (base : MapDB) (env : Env) (fs : FileSys) :
    Except MapError MapDB :=
  match dictGet env "REFLEXIBLE_MAPDB" with
  | none => Except.ok base
  | some path =>
    match dictGet fs path with
    | none => Except.error (MapError.ioError path)
    | some userDB => Except.ok (dictUpdate base userDB)

/-- Does the region's `alias` field, split on `,\s*`, contain `name`?
(the `if 'alias' in mapping_db[key]` guard plus the `re.split` test). -/
def aliasHasB (r : Region) (name : String) : Bool :=
  match r.alias? with
  | none => false
  | some a => (splitAlias a).contains name

/-- Region lookup step of `map_regions`: direct key lookup, then the
`for key in mapping_db` alias scan that keeps the first match, then
`raise KeyError`. -/
def regionLookup (db : MapDB) (name : String) : Except MapError Region :=
  match dictGet db name with
  | some r => Except.ok r
  | none =>
    match db.find? (fun p => aliasHasB p.2 name) with
    | some p => Except.ok p.2
    | none => Except.error (MapError.keyError name)

/-- Parameter assembly step of `map_regions`: update the defaults with
the region's entries, update with the caller's overrides, then
`map_par_.pop('m', None)`. -/
def paramsOf (r : Region) (map_par fig_par : Option (PyDict Value)) :
    PyDict Value × PyDict Value :=
  let mp := dictUpdate initial_map_par r.map_par
  let fp := dictUpdate initial_fig_par (r.fig_par.getD [])
  let mp := dictUpdate mp (map_par.getD [])
  let fp := dictUpdate fp (fig_par.getD [])
  (dictPop mp "m", fp)

/-- The embedded `map_regions`.  The base database, the environment and
the file system are explicit parameters; everything else follows
`reflexible/mapping.py` line by line. -/
def map_regions (base : MapDB) (env : Env) (fs : FileSys)
    (map_region : String)
    (map_par fig_par : Option (PyDict Value) := none) :
    Except MapError (PyDict Value × PyDict Value) := do
  let db ← resolveDB base env fs
  let region ← regionLookup db map_region
  pure (paramsOf region map_par fig_par)

/-- A well-formed Python dict has pairwise distinct keys. -/
def DictWF {V : Type} (d : PyDict V) : Prop := (d.map Prod.fst).Nodup

instance {V : Type} (d : PyDict V) : Decidable (DictWF d) :=
  List.nodupDecidable _

theorem dictGet_nil {V : Type} (k : String) :
    dictGet ([] : PyDict V) k = none := rfl

theorem dictGet_cons {V : Type} (k₀ : String) (v₀ : V) (d : PyDict V)
    (k : String) :
    dictGet ((k₀, v₀) :: d) k = if k₀ = k then some v₀ else dictGet d k := by
  by_cases h : k₀ = k
  · simp [dictGet, List.find?_cons_of_pos, h]
  · simp only [dictGet]
    rw [List.find?_cons_of_neg]
    · simp [h]
    · simp [h]

theorem dictGet_mem_keys {V : Type} {d : PyDict V} {k : String} {v : V}
    (h : dictGet d k = some v) : k ∈ d.map Prod.fst := by
  induction d with
  | nil => simp [dictGet_nil] at h
  | cons p d ih =>
    obtain ⟨k₀, v₀⟩ := p
    rw [dictGet_cons] at h
    by_cases hk : k₀ = k
    · simp [hk]
    · simp only [hk, if_false] at h
      simp [ih h]

theorem dictGet_setItem_self {V : Type} (d : PyDict V) (k : String) (v : V) :
    dictGet (setItem d k v) k = some v := by
  induction d with
  | nil => simp [setItem, dictGet_cons]
  | cons p d ih =>
    obtain ⟨k₀, v₀⟩ := p
    by_cases h : k₀ = k
    · simp [setItem, h, dictGet_cons]
    · simp [setItem, h, dictGet_cons, ih]

theorem dictGet_setItem_ne {V : Type} (d : PyDict V) (k k' : String) (v : V)
    (h : k' ≠ k) : dictGet (setItem d k v) k' = dictGet d k' := by
  induction d with
  | nil => simp [setItem, dictGet_cons, dictGet_nil, Ne.symm h]
  | cons p d ih =>
    obtain ⟨k₀, v₀⟩ := p
    by_cases hk : k₀ = k
    · subst hk
      simp [setItem, dictGet_cons, Ne.symm h]
    · simp [setItem, hk, dictGet_cons, ih]

theorem dictUpdate_nil {V : Type} (d : PyDict V) : dictUpdate d [] = d := rfl

theorem dictUpdate_cons {V : Type} (d : PyDict V) (k₀ : String) (v₀ : V)
    (e : PyDict V) :
    dictUpdate d ((k₀, v₀) :: e) = dictUpdate (setItem d k₀ v₀) e := rfl

/-- Lookup in an updated dict: the override's binding wins when present,
otherwise the original binding survives (`e` has well-formed keys). -/
theorem dictGet_dictUpdate {V : Type} (d e : PyDict V) (k : String)
    (he : DictWF e) :
    dictGet (dictUpdate d e) k =
      match dictGet e k with
      | some v => some v
      | none => dictGet d k := by
  induction e generalizing d with
  | nil => simp [dictUpdate_nil, dictGet_nil]
  | cons p e ih =>
    obtain ⟨k₀, v₀⟩ := p
    have he' : DictWF e := (List.nodup_cons.mp he).2
    have hk₀ : k₀ ∉ e.map Prod.fst := (List.nodup_cons.mp he).1
    rw [dictUpdate_cons, ih _ he', dictGet_cons]
    by_cases hk : k₀ = k
    · subst hk
      cases hget : dictGet e k₀ with
      | some v => exact absurd (dictGet_mem_keys hget) hk₀
      | none => simp [dictGet_setItem_self]
    · cases hget : dictGet e k with
      | some v => simp [hk]
      | none => simp [hk, dictGet_setItem_ne _ _ _ _ (fun hh => hk hh.symm)]

theorem dictGet_dictPop_self {V : Type} (d : PyDict V) (k : String) :
    dictGet (dictPop d k) k = none := by
  induction d with
  | nil => rfl
  | cons p d ih =>
    obtain ⟨k₀, v₀⟩ := p
    by_cases h : k₀ = k
    · simpa [dictPop, h] using ih
    · simpa [dictPop, h, dictGet_cons] using ih

theorem dictGet_dictPop_ne {V : Type} (d : PyDict V) (k k' : String)
    (h : k' ≠ k) : dictGet (dictPop d k) k' = dictGet d k' := by
  induction d with
  | nil => rfl
  | cons p d ih =>
    obtain ⟨k₀, v₀⟩ := p
    by_cases hk : k₀ = k
    · subst hk
      simpa [dictPop, dictGet_cons, Ne.symm h] using ih
    · by_cases hk' : k₀ = k'
      · simp [dictPop, hk, hk', dictGet_cons, h]
      · simpa [dictPop, hk, hk', dictGet_cons] using ih

/-- The monadic pipeline of `map_regions`, unfolded into its three
steps. -/
theorem map_regions_eq (base : MapDB) (env : Env) (fs : FileSys)
    (name : String) (mp fp : Option (PyDict Value)) :
    map_regions base env fs name mp fp =
      match resolveDB base env fs with
      | Except.error e => Except.error e
      | Except.ok db =>
        match regionLookup db name with
        | Except.error e => Except.error e
        | Except.ok r => Except.ok (paramsOf r mp fp) := by
  cases h1 : resolveDB base env fs with
  | error e => simp [map_regions, h1, Bind.bind, Except.bind]
  | ok db =>
    cases h2 : regionLookup db name with
    | error e => simp [map_regions, h1, h2, Bind.bind, Except.bind]
    | ok r =>
      simp [map_regions, h1, h2, Bind.bind, Except.bind, Pure.pure,
            Except.pure]

/-- The spec-level alias condition: `name` is an exact element of the
region's comma-separated `alias` string. -/
def AliasHas (r : Region) (name : String) : Prop :=
  ∃ a, r.alias? = some a ∧ name ∈ splitAlias a

theorem aliasHasB_iff (r : Region) (name : String) :
    aliasHasB r name = true ↔ AliasHas r name := by
  cases h : r.alias? with
  | none => simp [aliasHasB, h, AliasHas]
  | some a => simp [aliasHasB, h, AliasHas, List.elem_iff]

instance (r : Region) (name : String) : Decidable (AliasHas r name) :=
  decidable_of_iff (aliasHasB r name = true) (aliasHasB_iff r name)

/-- Reduced form of `map_regions` once the database resolution step is
known to have produced `db`. -/
theorem map_regions_ok_db (base : MapDB) (env : Env) (fs : FileSys)
    (db : MapDB) (hdb : resolveDB base env fs = Except.ok db)
    (name : String) (mp fp : Option (PyDict Value)) :
    map_regions base env fs name mp fp =
      match regionLookup db name with
      | Except.error e => Except.error e
      | Except.ok r => Except.ok (paramsOf r mp fp) := by
  rw [map_regions_eq, hdb]

/-- A region of the packaged database, with an alias list, used as a
concrete input below. -/
def sampleRegion : Region :=
  { alias? := some "nh, my_own_nh"
    map_par := [("projection", Value.s "cyl")]
    fig_par := some [("figsize", Value.arr [(8, 0), (3, 0)])] }

/-- A one-region packaged database. -/
def sampleDB : MapDB := [("default", sampleRegion)]

/-- A user region that overrides `default`, as loaded from the file the
`REFLEXIBLE_MAPDB` variable points to. -/
def userRegion : Region :=
  { alias? := none
    map_par := [("projection", Value.s "merc")]
    fig_par := none }

/-- The parsed content of the user's mapping file. -/
def userDB0 : MapDB := [("default", userRegion)]

/-- A file system holding the user's mapping file. -/
def fs0 : FileSys := [("myregions.yml", userDB0)]

/-- An environment that sets `REFLEXIBLE_MAPDB`. -/
def envWithMapdb : Env := [("REFLEXIBLE_MAPDB", "myregions.yml")]

/-- Claim C1 is false as stated: `map_regions` does read the process
environment.  With the same base database, file system, region name and
caller overrides, an environment that sets `REFLEXIBLE_MAPDB` to a file
overriding the `default` region produces a different `(map_par,
fig_par)` result than the empty environment. -/
theorem map_regions_env_sensitive_cex :
    map_regions sampleDB [] fs0 "default" none none ≠
      map_regions sampleDB envWithMapdb fs0 "default" none none := by decide

/-- Claim C1, amended: `map_regions` consults the process environment,
but only through the `REFLEXIBLE_MAPDB` variable.  Two runs whose
environments agree on `REFLEXIBLE_MAPDB` (in particular, runs differing
only in other environment variables) return the same result. -/
theorem map_regions_env_dependence_only_mapdb (base : MapDB)
    (env1 env2 : Env) (fs : FileSys) (name : String)
    (mp fp : Option (PyDict Value))
    (h : dictGet env1 "REFLEXIBLE_MAPDB" = dictGet env2 "REFLEXIBLE_MAPDB") :
    map_regions base env1 fs name mp fp =
      map_regions base env2 fs name mp fp := by
  rw [map_regions_eq, map_regions_eq]
  unfold resolveDB
  rw [h]

/-- Concrete instantiation of `map_regions_env_dependence_only_mapdb`:
an unrelated environment variable does not change the result. -/
theorem map_regions_env_dependence_only_mapdb_witness :
    dictGet [("HOME", "/root")] "REFLEXIBLE_MAPDB" =
      dictGet ([] : Env) "REFLEXIBLE_MAPDB" ∧
    map_regions sampleDB [("HOME", "/root")] [] "default" none none =
      map_regions sampleDB [] [] "default" none none :=
  ⟨by decide,
   map_regions_env_dependence_only_mapdb sampleDB [("HOME", "/root")] []
     [] "default" none none (by decide)⟩

/-- Claim C9: whenever `map_regions` succeeds, the returned `map_par`
dictionary has no binding for the key `m` — the function ends with
`map_par_.pop('m', None)`. -/
theorem map_regions_result_has_no_m (base : MapDB) (env : Env)
    (fs : FileSys) (name : String) (mp fp : Option (PyDict Value))
    (res : PyDict Value × PyDict Value)
    (h : map_regions base env fs name mp fp = Except.ok res) :
    dictGet res.1 "m" = none := by
  cases h1 : resolveDB base env fs with
  | error e =>
    rw [map_regions_eq, h1] at h
    simp at h
  | ok db =>
    rw [map_regions_ok_db base env fs db h1] at h
    cases h2 : regionLookup db name with
    | error e =>
      rw [h2] at h
      simp at h
    | ok r =>
      rw [h2] at h
      injection h with h
      subst h
      simp [paramsOf, dictGet_dictPop_self]

/-- A region whose own `map_par` carries an `m` binding. -/
def mRegion : Region :=
  { alias? := none
    map_par := [("m", Value.i 0), ("projection", Value.s "cyl")]
    fig_par := none }

/-- A database whose `default` region carries an `m` binding. -/
def mDB : MapDB := [("default", mRegion)]

/-- Concrete instantiation of `map_regions_result_has_no_m`: even with
`m` in the region's own `map_par` and in the caller's override, the
returned `map_par` has no `m` binding. -/
theorem map_regions_result_has_no_m_witness :
    map_regions mDB [] [] "default" (some [("m", Value.i 1)]) none =
      Except.ok (paramsOf mRegion (some [("m", Value.i 1)]) none) ∧
    dictGet (paramsOf mRegion (some [("m", Value.i 1)]) none).1 "m" =
      none :=
  ⟨by decide,
   map_regions_result_has_no_m mDB [] [] "default"
     (some [("m", Value.i 1)]) none _ (by decide)⟩

/-- Claim C2 is false as stated for the key `m`: the caller's `map_par`
override binds `m` to `1`, yet the returned `map_par` does not map `m`
to the caller's value — the binding is removed by the final
`pop('m', None)`. -/
theorem map_regions_caller_m_override_lost :
    map_regions mDB [] [] "default" (some [("m", Value.i 1)]) none =
      Except.ok (paramsOf mRegion (some [("m", Value.i 1)]) none) ∧
    dictGet (paramsOf mRegion (some [("m", Value.i 1)]) none).1 "m" ≠
      some (Value.i 1) := by decide

/-- Claim C2, amended: `map_regions` resolves by layered configuration —
base table, user table merged region-key by region-key over it (when
`REFLEXIBLE_MAPDB` is set), explicit caller overrides last — so every
region key present in the user table resolves to the user's entry, keys
absent from the user table keep the base entry, and every key of a
caller override keeps the caller's value in the result, with the single
exception of the key `m` of `map_par`, which is removed from the
returned dictionary. -/
theorem map_regions_layered_resolution (base userDB : MapDB) (env : Env)
    (fs : FileSys) (path : String)
    (henv : dictGet env "REFLEXIBLE_MAPDB" = some path)
    (hfs : dictGet fs path = some userDB)
    (huser : DictWF userDB)
    (name : String) (callerMp callerFp : PyDict Value)
    (hmp : DictWF callerMp) (hfp : DictWF callerFp)
    (res : PyDict Value × PyDict Value)
    (hok : map_regions base env fs name (some callerMp) (some callerFp) =
      Except.ok res) :
    resolveDB base env fs = Except.ok (dictUpdate base userDB) ∧
    (∀ k r, dictGet userDB k = some r →
      dictGet (dictUpdate base userDB) k = some r) ∧
    (∀ k, dictGet userDB k = none →
      dictGet (dictUpdate base userDB) k = dictGet base k) ∧
    (∀ k v, k ≠ "m" → dictGet callerMp k = some v →
      dictGet res.1 k = some v) ∧
    dictGet res.1 "m" = none ∧
    (∀ k v, dictGet callerFp k = some v → dictGet res.2 k = some v) := by
  have hres : resolveDB base env fs = Except.ok (dictUpdate base userDB) := by
    simp only [resolveDB, henv, hfs]
  rw [map_regions_ok_db base env fs _ hres] at hok
  have hr : ∃ r, regionLookup (dictUpdate base userDB) name = Except.ok r ∧
      res = paramsOf r (some callerMp) (some callerFp) := by
    cases h2 : regionLookup (dictUpdate base userDB) name with
    | error e =>
      rw [h2] at hok
      simp at hok
    | ok r =>
      rw [h2] at hok
      injection hok with hok
      exact ⟨r, rfl, hok.symm⟩
  obtain ⟨r, h2, hreq⟩ := hr
  subst hreq
  refine ⟨hres, ?_, ?_, ?_, ?_, ?_⟩
  · intro k rr h
    rw [dictGet_dictUpdate _ _ _ huser, h]
  · intro k h
    rw [dictGet_dictUpdate _ _ _ huser, h]
  · intro k v hne hk
    simp only [paramsOf, Option.getD_some]
    rw [dictGet_dictPop_ne _ _ _ hne, dictGet_dictUpdate _ _ _ hmp, hk]
  · simp [paramsOf, dictGet_dictPop_self]
  · intro k v hk
    simp only [paramsOf, Option.getD_some]
    rw [dictGet_dictUpdate _ _ _ hfp, hk]

/-- Caller `map_par` override used as a concrete input. -/
def callerMp0 : PyDict Value := [("projection", Value.s "lcc"), ("m", Value.i 5)]

/-- Caller `fig_par` override used as a concrete input. -/
def callerFp0 : PyDict Value := [("figsize", Value.arr [(10, 0), (5, 0)])]

/-- Concrete instantiation of `map_regions_layered_resolution`: the user
file overrides the `default` region, the caller's `projection` and
`figsize` win, and the caller's `m` is dropped. -/
theorem map_regions_layered_resolution_witness :
    map_regions sampleDB envWithMapdb fs0 "default"
        (some callerMp0) (some callerFp0) =
      Except.ok (paramsOf userRegion (some callerMp0) (some callerFp0)) ∧
    dictGet (dictUpdate sampleDB userDB0) "default" = some userRegion ∧
    dictGet (paramsOf userRegion (some callerMp0) (some callerFp0)).1
      "projection" = some (Value.s "lcc") ∧
    dictGet (paramsOf userRegion (some callerMp0) (some callerFp0)).1 "m" =
      none ∧
    dictGet (paramsOf userRegion (some callerMp0) (some callerFp0)).2
      "figsize" = some (Value.arr [(10, 0), (5, 0)]) := by
  have h := map_regions_layered_resolution sampleDB userDB0 envWithMapdb fs0
    "myregions.yml" (by decide) (by decide) (by decide) "default"
    callerMp0 callerFp0 (by decide) (by decide)
    (paramsOf userRegion (some callerMp0) (some callerFp0)) (by decide)
  exact ⟨by decide, h.2.1 "default" userRegion (by decide),
    h.2.2.2.1 "projection" (Value.s "lcc") (by decide) (by decide),
    h.2.2.2.2.1,
    h.2.2.2.2.2 "figsize" (Value.arr [(10, 0), (5, 0)]) (by decide)⟩

/-- Claim C10: with the database resolution step yielding `db`,
`map_regions` raises `KeyError` exactly when the requested name is
neither a key of `db` nor an exact element of some region's
comma-separated alias string; and when only an alias matches, the
result is built from the first region of `db` (in iteration order)
whose alias list contains the name. -/
theorem map_regions_keyError_characterization (base : MapDB) (env : Env)
    (fs : FileSys) (db : MapDB)
    (hdb : resolveDB base env fs = Except.ok db)
    (name : String) (mp fp : Option (PyDict Value)) :
    (map_regions base env fs name mp fp =
        Except.error (MapError.keyError name) ↔
      dictGet db name = none ∧ ∀ p ∈ db, ¬ AliasHas p.2 name) ∧
    (∀ d1 entry d2, db = d1 ++ entry :: d2 →
      dictGet db name = none →
      (∀ q ∈ d1, ¬ AliasHas q.2 name) → AliasHas entry.2 name →
      map_regions base env fs name mp fp =
        Except.ok (paramsOf entry.2 mp fp)) := by
  rw [map_regions_ok_db base env fs db hdb]
  constructor
  · constructor
    · intro h
      cases hg : dictGet db name with
      | some r =>
        unfold regionLookup at h
        rw [hg] at h
        simp at h
      | none =>
        refine ⟨rfl, ?_⟩
        intro p hp hA
        unfold regionLookup at h
        rw [hg] at h
        cases hf : db.find? (fun p => aliasHasB p.2 name) with
        | some q => rw [hf] at h; simp at h
        | none =>
          exact (List.find?_eq_none.mp hf p hp) ((aliasHasB_iff _ _).mpr hA)
    · rintro ⟨hg, hall⟩
      have hf : db.find? (fun p => aliasHasB p.2 name) = none :=
        List.find?_eq_none.mpr
          (fun p hp hb => hall p hp ((aliasHasB_iff _ _).mp hb))
      unfold regionLookup
      rw [hg, hf]
  · rintro d1 entry d2 rfl hg hnone hA
    have h1 : d1.find? (fun p => aliasHasB p.2 name) = none :=
      List.find?_eq_none.mpr
        (fun q hq hb => hnone q hq ((aliasHasB_iff _ _).mp hb))
    have hf : (d1 ++ entry :: d2).find? (fun p => aliasHasB p.2 name) =
        some entry := by
      have hb : aliasHasB entry.2 name = true := (aliasHasB_iff _ _).mpr hA
      rw [List.find?_append, h1]
      simp [List.find?_cons, hb]
    unfold regionLookup
    rw [hg, hf]

/-- First region of the alias-lookup example: its aliases do not
contain `polarcat`. -/
def aliasRegionA : Region :=
  { alias? := some "x, y"
    map_par := [("projection", Value.s "cyl")]
    fig_par := none }

/-- Second region of the alias-lookup example: its aliases contain
`polarcat`. -/
def aliasRegionB : Region :=
  { alias? := some "pc, polarcat"
    map_par := [("projection", Value.s "npstere")]
    fig_par := none }

/-- Two-region database for the alias-lookup example. -/
def aliasDB : MapDB := [("regA", aliasRegionA), ("regB", aliasRegionB)]

/-- Concrete instantiation of `map_regions_keyError_characterization`:
`polarcat`, which is only an alias, resolves to the first region whose
alias list contains it, and `nope`, which is neither a key nor an
alias, raises `KeyError`. -/
theorem map_regions_keyError_characterization_witness :
    map_regions aliasDB [] [] "polarcat" none none =
      Except.ok (paramsOf aliasRegionB none none) ∧
    map_regions aliasDB [] [] "nope" none none =
      Except.error (MapError.keyError "nope") := by
  have h1 := map_regions_keyError_characterization aliasDB [] [] aliasDB
    (by decide) "polarcat" none none
  have h2 := map_regions_keyError_characterization aliasDB [] [] aliasDB
    (by decide) "nope" none none
  exact ⟨h1.2 [("regA", aliasRegionA)] ("regB", aliasRegionB) [] rfl
      (by decide) (by decide) (by decide),
    h2.1.mpr ⟨by decide, by decide⟩⟩

/-- Modelled from the spec: the direction enum of a FLEXPART run
(spec §3); the conversion sources (`reflexible/conv2netcdf4`) are not
part of this checkout, only their tests are. -/
inductive Direction where
  | forward
  | backward
deriving DecidableEq

/-- Modelled from the spec: the error taxonomy of the conversion core
(spec §7), for the absent `reflexible/conv2netcdf4` sources. -/
inductive ConvError where
  | corruptRecordError
  | endOfStreamError
  | headerFormatError
  | missingInputError
  | writeFailureError
deriving DecidableEq

/-- Modelled from the spec: a decoded data cube with shape
`(levels, lat, lon)` (spec §3); float values are modelled as exact
integers, since the claims concern which elements are aggregated, not
rounding. -/
abbrev Cube : Type := List (List (List Int))

/-- Modelled from the spec: the `Grid` value type held in `FD`/`C`
(spec §3) of the absent conversion sources: the data cube, the
per-level slabs (level index to 2-D lat-major/lon-minor array), and the
backward-only time-integrated field. -/
structure Grid where
  data_cube : Cube
  slabs : List (List (List Int))
  time_integrated : Option Cube
deriving DecidableEq

/-- Modelled from the spec: the `Header` produced by the absent header
parser (spec §3): grid geometry, direction and available dates
(whole-second instants). -/
structure Header where
  outlon0 : Int
  outlat0 : Int
  dxout : Int
  dyout : Int
  numxgrid : Nat
  numygrid : Nat
  numzgrid : Nat
  direction : Direction
  available_dates : List Nat
deriving DecidableEq

/-- Modelled from the spec: the raw fields the absent header parser
reads from the fixed-layout header records before validation
(spec §4.2): geometry numbers, the direction flag `ldirect`, and the
compact `(YYYYMMDD, HHMMSS)` timestamp encodings of the availability
record. -/
structure RawHeader where
  outlon0 : Int
  outlat0 : Int
  dxout : Int
  dyout : Int
  numxgrid : Nat
  numygrid : Nat
  numzgrid : Nat
  ldirect : Int
  stamps : List (Nat × Nat)
deriving DecidableEq

/-- Modelled from the spec: seconds-of-day of a compact `HHMMSS`
encoding (spec §4.2 whole-second-resolution instants). -/
def secondsOfDay (hms : Nat) : Nat :=
  hms / 10000 * 3600 + hms / 100 % 100 * 60 + hms % 100

/-- Modelled from the spec: a day index for a compact `YYYYMMDD`
encoding, schematic (lexicographically monotone in year, month, day);
the spec fixes only that stamps decode to whole-second instants. -/
def dayIndex (ymd : Nat) : Nat :=
  ymd / 10000 * 372 + ymd / 100 % 100 * 31 + ymd % 100

/-- Modelled from the spec: the whole-second instant of a compact
date+time stamp (spec §4.2). -/
def stampInstant (st : Nat × Nat) : Nat :=
  dayIndex st.1 * 86400 + secondsOfDay st.2

/-- Strict increase of a list of instants, as a boolean scan. -/
def strictlyIncreasingB : List Nat → Bool
  | [] => true
  | [_] => true
  | a :: b :: rest => decide (a < b) && strictlyIncreasingB (b :: rest)

theorem strictlyIncreasingB_iff (l : List Nat) :
    strictlyIncreasingB l = true ↔ List.Chain' (· < ·) l := by
  induction l with
  | nil => simp [strictlyIncreasingB]
  | cons a l ih =>
    cases l with
    | nil => simp [strictlyIncreasingB]
    | cons b rest =>
      simp [strictlyIncreasingB, List.chain'_cons, ih]

/-- Modelled from the spec: the direction flag decoding of the absent
header parser (spec §4.2): the explicit header flag must denote forward
or backward; any other value fails. -/
def directionOfLdirect (ld : Int) : Option Direction :=
  if ld = 1 then some Direction.forward
  else if ld = -1 then some Direction.backward
  else none

/-- Modelled from the spec: the validation step of the absent header
parser (spec §4.2, §3): positive dimension counts and cell sizes, a
known direction flag, and a non-empty, strictly increasing timestamp
sequence; each violation fails with `HeaderFormatError`. -/
def parseHeader (raw : RawHeader) : Except ConvError Header :=
  if raw.numxgrid = 0 ∨ raw.numygrid = 0 ∨ raw.numzgrid = 0 then
    Except.error ConvError.headerFormatError
  else if raw.dxout ≤ 0 ∨ raw.dyout ≤ 0 then
    Except.error ConvError.headerFormatError
  else
    match directionOfLdirect raw.ldirect with
    | none => Except.error ConvError.headerFormatError
    | some dir =>
      if (raw.stamps.map stampInstant).isEmpty then
        Except.error ConvError.headerFormatError
      else if strictlyIncreasingB (raw.stamps.map stampInstant) then
        Except.ok
          { outlon0 := raw.outlon0, outlat0 := raw.outlat0
            dxout := raw.dxout, dyout := raw.dyout
            numxgrid := raw.numxgrid, numygrid := raw.numygrid
            numzgrid := raw.numzgrid, direction := dir
            available_dates := raw.stamps.map stampInstant }
      else Except.error ConvError.headerFormatError

/-- Claim C5: whenever header parsing succeeds, `available_dates` is
non-empty and strictly increasing; an input whose decoded timestamp
sequence is not strictly increasing makes `parseHeader` fail with
`HeaderFormatError` instead of producing a `Header`. -/
theorem parseHeader_dates_strict_mono (raw : RawHeader) :
    (∀ hd, parseHeader raw = Except.ok hd →
      hd.available_dates ≠ [] ∧ List.Chain' (· < ·) hd.available_dates) ∧
    (¬ List.Chain' (· < ·) (raw.stamps.map stampInstant) →
      parseHeader raw = Except.error ConvError.headerFormatError) := by
  constructor
  · intro hd hok
    unfold parseHeader at hok
    split at hok
    · simp at hok
    · split at hok
      · simp at hok
      · split at hok
        · simp at hok
        · split at hok
          · simp at hok
          · split at hok
            · rename_i hemp hinc
              injection hok with hok
              subst hok
              refine ⟨?_, (strictlyIncreasingB_iff _).mp hinc⟩
              simpa [List.isEmpty_iff] using hemp
            · simp at hok
  · intro hmono
    unfold parseHeader
    split
    · rfl
    · split
      · rfl
      · split
        · rfl
        · split
          · rfl
          · rw [if_neg]
            intro hb
            exact hmono ((strictlyIncreasingB_iff _).mp hb)

/-- A raw header whose stamps are strictly increasing. -/
def rawGood : RawHeader :=
  { outlon0 := -180, outlat0 := -90, dxout := 1, dyout := 1
    numxgrid := 2, numygrid := 1, numzgrid := 1, ldirect := 1
    stamps := [(20070121, 60000), (20070121, 90000)] }

/-- The header `rawGood` parses to. -/
def hdrGood : Header :=
  { outlon0 := -180, outlat0 := -90, dxout := 1, dyout := 1
    numxgrid := 2, numygrid := 1, numzgrid := 1
    direction := Direction.forward
    available_dates := [stampInstant (20070121, 60000),
                        stampInstant (20070121, 90000)] }

/-- A raw header whose stamps go backwards in time. -/
def rawBad : RawHeader :=
  { rawGood with stamps := [(20070122, 0), (20070121, 0)] }

/-- Concrete instantiation of `parseHeader_dates_strict_mono`: a good
input yields non-empty strictly increasing dates, a non-increasing
input fails with `HeaderFormatError`. -/
theorem parseHeader_dates_strict_mono_witness :
    (parseHeader rawGood = Except.ok hdrGood ∧
      hdrGood.available_dates ≠ [] ∧
      List.Chain' (· < ·) hdrGood.available_dates) ∧
    ¬ List.Chain' (· < ·) (rawBad.stamps.map stampInstant) ∧
    parseHeader rawBad = Except.error ConvError.headerFormatError := by
  have hmono : ¬ List.Chain' (· < ·) (rawBad.stamps.map stampInstant) :=
    fun hc => absurd ((strictlyIncreasingB_iff _).mpr hc) (by decide)
  exact ⟨⟨by decide,
      (parseHeader_dates_strict_mono rawGood).1 hdrGood (by decide)⟩,
    hmono, (parseHeader_dates_strict_mono rawBad).2 hmono⟩

/-- A 2-D slab of zeros with `ny` rows of `nx` cells. -/
def zeroSlab (ny nx : Nat) : List (List Int) :=
  List.replicate ny (List.replicate nx 0)

/-- Modelled from the spec: the zero-filled accumulator the absent
time-integration stage starts from (spec §4.4), shaped by the header
geometry. -/
def zeroCube (nz ny nx : Nat) : Cube :=
  List.replicate nz (zeroSlab ny nx)

/-- Modelled from the spec: elementwise sum of two cubes (spec §4.4
running sum). -/
def addCube (a b : Cube) : Cube :=
  List.zipWith (List.zipWith (List.zipWith (· + ·))) a b

/-- The element of a cube at level `l`, row `i`, column `j` (0 outside
the cube). -/
def cubeAt (c : Cube) (l i j : Nat) : Int :=
  (((c.getD l []).getD i []).getD j 0)

/-- A cube has `nz` levels of `ny` rows of `nx` cells. -/
def CubeWF (c : Cube) (nz ny nx : Nat) : Prop :=
  c.length = nz ∧ ∀ p ∈ c, p.length = ny ∧ ∀ r ∈ p, r.length = nx

instance (c : Cube) (nz ny nx : Nat) : Decidable (CubeWF c nz ny nx) :=
  inferInstanceAs (Decidable
    (c.length = nz ∧ ∀ p ∈ c, p.length = ny ∧ ∀ r ∈ p, r.length = nx))

/-- Split a list into chunks of `n` (structural on the fuel, which the
wrapper instantiates with the list length). -/
def chunksOfAux {α : Type} (n : Nat) : Nat → List α → List (List α)
  | _, [] => []
  | 0, _ :: _ => []
  | fuel + 1, a :: l => (a :: l).take n :: chunksOfAux n fuel ((a :: l).drop n)

/-- Split a list into consecutive chunks of `n` elements (the reshape
primitive of the field decoder). -/
def chunksOf {α : Type} (n : Nat) (l : List α) : List (List α) :=
  if n = 0 then [] else chunksOfAux n l.length l

/-- Modelled from the spec: the absent field decoder's per-record work
(spec §4.3): reshape the flat payload into `(levels, lat, lon)` in
row-major lat-then-lon order, and populate the grid with its cube, the
per-level slabs derived from the cube, and no time-integrated field. -/
def decodeGrid (h : Header) (payload : List Int) : Grid :=
  { data_cube := chunksOf h.numygrid (chunksOf h.numxgrid payload)
    slabs := chunksOf h.numygrid (chunksOf h.numxgrid payload)
    time_integrated := none }

/-- Modelled from the spec: the absent field decoder's `FD` store
(spec §4.3), as a map from `(species, date_or_step)` keys to the grid
decoded from that key's record payload. -/
def buildFD (h : Header) (payloads : Nat × Nat → List Int) :
    Nat × Nat → Grid :=
  fun key => decodeGrid h (payloads key)

/-- Modelled from the spec: the absent time-integration stage
(spec §4.4): elementwise running sum of the release's backward steps'
data cubes, in the order the steps were decoded, into an accumulator
that starts zero-filled with the header's geometry. -/
def timeIntegrate (h : Header) (FD : Nat × Nat → Grid)
    (steps : List Nat) (s : Nat) : Cube :=
  steps.foldl (fun acc st => addCube acc (FD (s, st)).data_cube)
    (zeroCube h.numzgrid h.numygrid h.numxgrid)

/-- Modelled from the spec: the absent concentration store `C`
(spec §4.3, §4.4).  For forward runs `C` is the decoded `FD` store
itself (they coincide by construction); for backward runs each
`(species, release)` entry carries the time-integrated accumulator over
that release's backward steps. -/
def buildC (h : Header) (FD : Nat × Nat → Grid)
    (steps : Nat → List Nat) : Nat × Nat → Grid :=
  match h.direction with
  | Direction.forward => FD
  | Direction.backward => fun key =>
    { data_cube := timeIntegrate h FD (steps key.2) key.1
      slabs := timeIntegrate h FD (steps key.2) key.1
      time_integrated := some (timeIntegrate h FD (steps key.2) key.1) }

theorem getD_replicate {α : Type} (n : Nat) (a : α) (m : Nat) (d : α) :
    (List.replicate n a).getD m d = if m < n then a else d := by
  induction n generalizing m with
  | zero => simp
  | succ n ih =>
    cases m with
    | zero => simp [List.replicate]
    | succ m =>
      rw [List.replicate_succ, List.getD_cons_succ, ih]
      simp [Nat.succ_lt_succ_iff]

theorem cubeAt_zeroCube (nz ny nx l i j : Nat) :
    cubeAt (zeroCube nz ny nx) l i j = 0 := by
  unfold cubeAt zeroCube zeroSlab
  rw [getD_replicate]
  split
  · rw [getD_replicate]
    split
    · rw [getD_replicate]
      split <;> rfl
    · simp
  · simp

theorem zeroCube_wf (nz ny nx : Nat) :
    CubeWF (zeroCube nz ny nx) nz ny nx := by
  refine ⟨by simp [zeroCube], ?_⟩
  intro p hp
  rw [List.eq_of_mem_replicate hp]
  refine ⟨by simp [zeroSlab], ?_⟩
  intro r hr
  rw [List.eq_of_mem_replicate hr]
  simp

theorem mem_zipWith {α β γ : Type} {f : α → β → γ} {a : List α}
    {b : List β} {c : γ} (h : c ∈ List.zipWith f a b) :
    ∃ x ∈ a, ∃ y ∈ b, c = f x y := by
  induction a generalizing b with
  | nil => simp at h
  | cons x xs ih =>
    cases b with
    | nil => simp at h
    | cons y ys =>
      rw [List.zipWith_cons_cons] at h
      rcases List.mem_cons.mp h with h | h
      · exact ⟨x, by simp, y, by simp, h⟩
      · obtain ⟨x', hx', y', hy', rfl⟩ := ih h
        exact ⟨x', by simp [hx'], y', by simp [hy'], rfl⟩

theorem addCube_wf {a b : Cube} {nz ny nx : Nat}
    (ha : CubeWF a nz ny nx) (hb : CubeWF b nz ny nx) :
    CubeWF (addCube a b) nz ny nx := by
  obtain ⟨hal, hap⟩ := ha
  obtain ⟨hbl, hbp⟩ := hb
  constructor
  · simp [addCube, hal, hbl]
  · intro p hp
    obtain ⟨x, hx, y, hy, rfl⟩ := mem_zipWith hp
    obtain ⟨hxl, hxr⟩ := hap x hx
    obtain ⟨hyl, hyr⟩ := hbp y hy
    constructor
    · simp [hxl, hyl]
    · intro r hr
      obtain ⟨rx, hrx, ry, hry, rfl⟩ := mem_zipWith hr
      simp [hxr rx hrx, hyr ry hry]

theorem getD_zipWith_add (a b : List Int) (h : a.length = b.length)
    (j : Nat) :
    (List.zipWith (· + ·) a b).getD j 0 = a.getD j 0 + b.getD j 0 := by
  induction a generalizing b j with
  | nil =>
    cases b with
    | nil => simp
    | cons _ _ => simp at h
  | cons x xs ih =>
    cases b with
    | nil => simp at h
    | cons y ys =>
      cases j with
      | zero => simp
      | succ j =>
        rw [List.zipWith_cons_cons, List.getD_cons_succ, List.getD_cons_succ,
          List.getD_cons_succ]
        exact ih ys (by simpa using h) j

theorem getD2_zipWith_add (a b : List (List Int))
    (hlen : a.length = b.length)
    (hrows : ∀ i, (a.getD i []).length = (b.getD i []).length)
    (i j : Nat) :
    ((List.zipWith (List.zipWith (· + ·)) a b).getD i []).getD j 0 =
      (a.getD i []).getD j 0 + (b.getD i []).getD j 0 := by
  induction a generalizing b i with
  | nil =>
    cases b with
    | nil => simp
    | cons _ _ => simp at hlen
  | cons x xs ih =>
    cases b with
    | nil => simp at hlen
    | cons y ys =>
      cases i with
      | zero =>
        rw [List.zipWith_cons_cons, List.getD_cons_zero, List.getD_cons_zero,
          List.getD_cons_zero]
        exact getD_zipWith_add x y (by simpa using hrows 0) j
      | succ i =>
        rw [List.zipWith_cons_cons, List.getD_cons_succ, List.getD_cons_succ,
          List.getD_cons_succ]
        exact ih ys (by simpa using hlen) (fun i => by simpa using hrows (i + 1)) i

theorem cubeAt_addCube (a b : Cube)
    (hlen : a.length = b.length)
    (hplanes : ∀ l, (a.getD l []).length = (b.getD l []).length)
    (hrows : ∀ l i, ((a.getD l []).getD i []).length =
      ((b.getD l []).getD i []).length)
    (l i j : Nat) :
    cubeAt (addCube a b) l i j = cubeAt a l i j + cubeAt b l i j := by
  unfold cubeAt addCube
  induction a generalizing b l with
  | nil =>
    cases b with
    | nil => simp
    | cons _ _ => simp at hlen
  | cons x xs ih =>
    cases b with
    | nil => simp at hlen
    | cons y ys =>
      cases l with
      | zero =>
        rw [List.zipWith_cons_cons, List.getD_cons_zero, List.getD_cons_zero,
          List.getD_cons_zero]
        exact getD2_zipWith_add x y (by simpa using hplanes 0)
          (fun i => by simpa using hrows 0 i) i j
      | succ l =>
        rw [List.zipWith_cons_cons, List.getD_cons_succ, List.getD_cons_succ,
          List.getD_cons_succ]
        exact ih ys (by simpa using hlen)
          (fun l => by simpa using hplanes (l + 1))
          (fun l i => by simpa using hrows (l + 1) i) l

theorem getD_mem_of_lt {α : Type} (c : List α) (l : Nat) (d : α)
    (h : l < c.length) : c.getD l d ∈ c := by
  induction c generalizing l with
  | nil => simp at h
  | cons x xs ih =>
    cases l with
    | zero => simp
    | succ l =>
      rw [List.getD_cons_succ]
      exact List.mem_cons_of_mem _ (ih l (by simpa using h))

theorem CubeWF_plane_length {c : Cube} {nz ny nx : Nat}
    (h : CubeWF c nz ny nx) (l : Nat) :
    (c.getD l []).length = if l < nz then ny else 0 := by
  obtain ⟨hl, hp⟩ := h
  by_cases hlt : l < nz
  · rw [if_pos hlt]
    exact (hp _ (getD_mem_of_lt c l [] (by omega))).1
  · rw [if_neg hlt, List.getD_eq_default c [] (by omega)]
    rfl

theorem CubeWF_row_length {c : Cube} {nz ny nx : Nat}
    (h : CubeWF c nz ny nx) (l i : Nat) :
    ((c.getD l []).getD i []).length =
      if l < nz ∧ i < ny then nx else 0 := by
  obtain ⟨hl, hp⟩ := h
  by_cases hlt : l < nz
  · obtain ⟨hplen, hprow⟩ := hp _ (getD_mem_of_lt c l [] (by omega))
    by_cases hit : i < ny
    · rw [if_pos ⟨hlt, hit⟩]
      exact hprow _ (getD_mem_of_lt _ i [] (by omega))
    · rw [List.getD_eq_default _ [] (by omega), if_neg (fun hh => hit hh.2)]
      rfl
  · rw [List.getD_eq_default c [] (by omega), if_neg (fun hh => hlt hh.1)]
    simp

theorem cubeAt_addCube_wf {a b : Cube} {nz ny nx : Nat}
    (ha : CubeWF a nz ny nx) (hb : CubeWF b nz ny nx) (l i j : Nat) :
    cubeAt (addCube a b) l i j = cubeAt a l i j + cubeAt b l i j := by
  apply cubeAt_addCube
  · rw [ha.1, hb.1]
  · intro l
    rw [CubeWF_plane_length ha, CubeWF_plane_length hb]
  · intro l i
    rw [CubeWF_row_length ha, CubeWF_row_length hb]

theorem cubeAt_foldl (nz ny nx : Nat) (L : List Cube) (acc : Cube)
    (hacc : CubeWF acc nz ny nx) (hL : ∀ c ∈ L, CubeWF c nz ny nx)
    (l i j : Nat) :
    cubeAt (L.foldl addCube acc) l i j =
      cubeAt acc l i j + (L.map (fun c => cubeAt c l i j)).sum := by
  induction L generalizing acc with
  | nil => simp
  | cons c L ih =>
    rw [List.foldl_cons,
      ih (addCube acc c) (addCube_wf hacc (hL c (by simp)))
        (fun x hx => hL x (by simp [hx])),
      cubeAt_addCube_wf hacc (hL c (by simp))]
    simp only [List.map_cons, List.sum_cons]
    ring

/-- Claim C3: on a backward run, every `(species, release)` entry of
`C` carries a `time_integrated` field equal to the elementwise sum of
the release's backward steps' `FD` data cubes, accumulated in the order
the steps were decoded; a release with zero recorded steps yields the
zero-filled accumulator, not an error. -/
theorem fill_backward_time_integrated (h : Header) (FD : Nat × Nat → Grid)
    (steps : Nat → List Nat) (s r : Nat)
    (hdir : h.direction = Direction.backward)
    (hwf : ∀ st ∈ steps r,
      CubeWF (FD (s, st)).data_cube h.numzgrid h.numygrid h.numxgrid) :
    ∃ T, (buildC h FD steps (s, r)).time_integrated = some T ∧
      (∀ l i j, cubeAt T l i j =
        ((steps r).map
          (fun st => cubeAt (FD (s, st)).data_cube l i j)).sum) ∧
      (steps r = [] →
        T = zeroCube h.numzgrid h.numygrid h.numxgrid) := by
  refine ⟨timeIntegrate h FD (steps r) s, ?_, ?_, ?_⟩
  · unfold buildC
    rw [hdir]
  · intro l i j
    unfold timeIntegrate
    rw [← List.foldl_map (fun st => (FD (s, st)).data_cube) addCube]
    have hL : ∀ c ∈ (steps r).map (fun st => (FD (s, st)).data_cube),
        CubeWF c h.numzgrid h.numygrid h.numxgrid := by
      intro c hc
      obtain ⟨st, hst, rfl⟩ := List.mem_map.mp hc
      exact hwf st hst
    rw [cubeAt_foldl h.numzgrid h.numygrid h.numxgrid _ _
        (zeroCube_wf _ _ _) hL, cubeAt_zeroCube, zero_add, List.map_map]
    rfl
  · intro h0
    unfold timeIntegrate
    rw [h0]
    rfl

/-- A backward-run header with a `(1, 1, 2)` grid. -/
def hdrBwd : Header :=
  { outlon0 := 0, outlat0 := 0, dxout := 1, dyout := 1
    numxgrid := 2, numygrid := 1, numzgrid := 1
    direction := Direction.backward
    available_dates := [100, 200] }

/-- Record payloads for the two backward steps of the example. -/
def payloads0 : Nat × Nat → List Int :=
  fun key => if key.2 = 0 then [1, 2] else [3, 4]

/-- The decoded `FD` store of the backward example. -/
def FD0 : Nat × Nat → Grid := buildFD hdrBwd payloads0

/-- Backward steps per release: release 0 has two steps, others none. -/
def steps0 : Nat → List Nat := fun r => if r = 0 then [0, 1] else []

/-- Concrete instantiation of `fill_backward_time_integrated` on a
two-step backward release. -/
theorem fill_backward_time_integrated_witness :
    hdrBwd.direction = Direction.backward ∧
    (∀ st ∈ steps0 0, CubeWF (FD0 (0, st)).data_cube
      hdrBwd.numzgrid hdrBwd.numygrid hdrBwd.numxgrid) ∧
    (∃ T, (buildC hdrBwd FD0 steps0 (0, 0)).time_integrated = some T ∧
      (∀ l i j, cubeAt T l i j =
        ((steps0 0).map
          (fun st => cubeAt (FD0 (0, st)).data_cube l i j)).sum) ∧
      (steps0 0 = [] →
        T = zeroCube hdrBwd.numzgrid hdrBwd.numygrid hdrBwd.numxgrid)) :=
  ⟨rfl, by decide,
   fill_backward_time_integrated hdrBwd FD0 steps0 0 0 rfl (by decide)⟩

/-- Claim C4: on a forward run the `C` store is the `FD` store itself,
so each entry's data cube agrees elementwise; the two stores alias by
construction, and the embedding is pure, so neither entry can change
independently of the other. -/
theorem forward_C_equals_FD (h : Header) (FD : Nat × Nat → Grid)
    (steps : Nat → List Nat) (s d : Nat)
    (hdir : h.direction = Direction.forward) :
    buildC h FD steps (s, d) = FD (s, d) ∧
    ∀ l i j, cubeAt (buildC h FD steps (s, d)).data_cube l i j =
      cubeAt (FD (s, d)).data_cube l i j := by
  have hC : buildC h FD steps = FD := by
    unfold buildC
    rw [hdir]
  rw [hC]
  exact ⟨rfl, fun _ _ _ => rfl⟩

/-- A forward-run header with the same geometry as `hdrBwd`. -/
def hdrFwd : Header := { hdrBwd with direction := Direction.forward }

/-- Concrete instantiation of `forward_C_equals_FD`. -/
theorem forward_C_equals_FD_witness :
    hdrFwd.direction = Direction.forward ∧
    (buildC hdrFwd (buildFD hdrFwd payloads0) steps0 (0, 0) =
        buildFD hdrFwd payloads0 (0, 0) ∧
      ∀ l i j,
        cubeAt (buildC hdrFwd (buildFD hdrFwd payloads0) steps0
          (0, 0)).data_cube l i j =
        cubeAt (buildFD hdrFwd payloads0 (0, 0)).data_cube l i j) :=
  ⟨rfl, forward_C_equals_FD hdrFwd (buildFD hdrFwd payloads0) steps0 0 0 rfl⟩

/-- Claim C6: for every grid held in `FD` or `C` as built by the
pipeline, the slab at each level index equals the data cube's plane at
that level — the slabs are derived from the cube at construction, in
the decoder's single fixed row-major lat/lon orientation, and the
embedding being pure they are never mutated afterwards. -/
theorem slabs_eq_data_cube (h : Header) (payloads : Nat × Nat → List Int)
    (steps : Nat → List Nat) (key : Nat × Nat) (k : Nat) :
    (buildFD h payloads key).slabs.getD k [] =
      (buildFD h payloads key).data_cube.getD k [] ∧
    (buildC h (buildFD h payloads) steps key).slabs.getD k [] =
      (buildC h (buildFD h payloads) steps key).data_cube.getD k [] := by
  constructor
  · rfl
  · unfold buildC
    cases h.direction <;> rfl

/-- Modelled from the spec: the orography grid with its attributes
(spec §3, §4.5), for the absent orography loader sources. -/
structure Oro where
  data : List (List Int)
  attrs : PyDict Value
deriving DecidableEq

/-- Modelled from the spec: the absent orography loader (spec §4.5):
reads a single static `(lat, lon)` record, fails with
`HeaderFormatError` on a size mismatch, and attaches
`standard_name = "surface altitude"` together with the grid's
coordinate attributes. -/
def loadOro (h : Header) (payload : List Int) : Except ConvError Oro :=
  if payload.length = h.numygrid * h.numxgrid then
    Except.ok
      { data := chunksOf h.numxgrid payload
        attrs := [("standard_name", Value.s "surface altitude"),
                  ("outlon0", Value.i h.outlon0),
                  ("outlat0", Value.i h.outlat0),
                  ("dxout", Value.i h.dxout),
                  ("dyout", Value.i h.dyout)] }
  else Except.error ConvError.headerFormatError

/-- Claim C8: whenever the orography loader succeeds, the loaded grid's
`standard_name` attribute equals `"surface altitude"`; the embedding is
pure, so the attribute cannot change after the load. -/
theorem loadOro_standard_name (h : Header) (payload : List Int)
    (oro : Oro) (hok : loadOro h payload = Except.ok oro) :
    dictGet oro.attrs "standard_name" =
      some (Value.s "surface altitude") := by
  unfold loadOro at hok
  split at hok
  · injection hok with hok
    subst hok
    rfl
  · simp at hok

/-- Concrete instantiation of `loadOro_standard_name` on a `1 × 2`
orography record. -/
theorem loadOro_standard_name_witness :
    loadOro hdrFwd [7, 8] =
      Except.ok { data := chunksOf hdrFwd.numxgrid [7, 8]
                  attrs := [("standard_name", Value.s "surface altitude"),
                            ("outlon0", Value.i hdrFwd.outlon0),
                            ("outlat0", Value.i hdrFwd.outlat0),
                            ("dxout", Value.i hdrFwd.dxout),
                            ("dyout", Value.i hdrFwd.dyout)] } ∧
    dictGet ({ data := chunksOf hdrFwd.numxgrid [7, 8]
               attrs := [("standard_name", Value.s "surface altitude"),
                         ("outlon0", Value.i hdrFwd.outlon0),
                         ("outlat0", Value.i hdrFwd.outlat0),
                         ("dxout", Value.i hdrFwd.dxout),
                         ("dyout", Value.i hdrFwd.dyout)] } : Oro).attrs
      "standard_name" = some (Value.s "surface altitude") :=
  ⟨by decide, loadOro_standard_name hdrFwd [7, 8] _ (by decide)⟩

/-- Little-endian value of a byte list. -/
def bytesToNat : List Nat → Nat
  | [] => 0
  | b :: rest => b + 256 * bytesToNat rest

/-- The four little-endian bytes of a 32-bit value. -/
def natToBytes4 (n : Nat) : List Nat :=
  [n % 256, n / 256 % 256, n / 256 ^ 2 % 256, n / 256 ^ 3 % 256]

theorem bytesToNat_natToBytes4 (n : Nat) (h : n < 2 ^ 32) :
    bytesToNat (natToBytes4 n) = n := by
  simp only [natToBytes4, bytesToNat]
  omega

/-- Modelled from the spec: the absent record reader (spec §4.1): read
the 4-byte length prefix `n`, read exactly `n` payload bytes, read the
trailing length field, fail with `CorruptRecordError` when the trailing
value differs from `n` or the stream is truncated mid-record, and fail
with `EndOfStreamError` at a record boundary; returns the payload and
the remaining stream. -/
def read_record (s : List Nat) : Except ConvError (List Nat × List Nat) :=
  if s = [] then Except.error ConvError.endOfStreamError
  else if s.length < 4 then Except.error ConvError.corruptRecordError
  else if (s.drop 4).length < bytesToNat (s.take 4) + 4 then
    Except.error ConvError.corruptRecordError
  else if bytesToNat (((s.drop 4).drop (bytesToNat (s.take 4))).take 4) =
      bytesToNat (s.take 4) then
    Except.ok ((s.drop 4).take (bytesToNat (s.take 4)),
      (s.drop 4).drop (bytesToNat (s.take 4) + 4))
  else Except.error ConvError.corruptRecordError

/-- Modelled from the spec: repeated record reads of the absent
conversion pipeline until the stream's end; the fuel (instantiated with
the stream length, an upper bound since every record consumes at least
its two length fields) keeps the recursion structural. -/
def decodeAllAux : Nat → List Nat → Except ConvError (List (List Nat))
  | _, [] => Except.ok []
  | 0, _ :: _ => Except.error ConvError.corruptRecordError
  | fuel + 1, b :: s =>
    match read_record (b :: s) with
    | Except.error e => Except.error e
    | Except.ok (p, rest) =>
      match decodeAllAux fuel rest with
      | Except.error e => Except.error e
      | Except.ok ps => Except.ok (p :: ps)

/-- Modelled from the spec: decode every record of a byte stream
(spec §4.1, §4.3); an empty remainder at a record boundary is
legitimate end-of-input. -/
def decodeAll (s : List Nat) : Except ConvError (List (List Nat)) :=
  decodeAllAux s.length s

/-- A file system mapping paths to file contents. -/
abbrev FS : Type := List (String × List Nat)

/-- Modelled from the spec: the absent conversion driver
`create_ncfile` (spec §4.6, §4.7), restricted to what the claims
observe: decode all records of the input stream, and only on success
write the output file (rendered schematically as the concatenated
payloads) at the destination path; any decode failure aborts the run,
propagates the error, and leaves the file system untouched — no
partial output. -/
def create_ncfile (fs : FS) (input : List Nat) (outPath : String) :
    Except ConvError String × FS :=
  match decodeAll input with
  | Except.error e => (Except.error e, fs)
  | Except.ok payloads =>
    (Except.ok outPath, setItem fs outPath payloads.flatten)

theorem decodeAll_error (s : List Nat) (e : ConvError) (hs : s ≠ [])
    (h : read_record s = Except.error e) : decodeAll s = Except.error e := by
  unfold decodeAll
  cases s with
  | nil => exact absurd rfl hs
  | cons b s' =>
    rw [List.length_cons]
    unfold decodeAllAux
    rw [h]

/-- Claim C7: a stream whose trailing record-length field differs from
the leading length prefix makes the record reader fail with
`CorruptRecordError`, and a conversion run on such an input propagates
that error and leaves no output file at the destination path. -/
theorem truncated_record_corrupt (n t : Nat) (payload rest : List Nat)
    (fs : FS) (outPath : String)
    (hlen : payload.length = n) (hn : n < 2 ^ 32) (ht : t < 2 ^ 32)
    (hne : t ≠ n) (hout : dictGet fs outPath = none) :
    read_record (natToBytes4 n ++ payload ++ natToBytes4 t ++ rest) =
      Except.error ConvError.corruptRecordError ∧
    (create_ncfile fs (natToBytes4 n ++ payload ++ natToBytes4 t ++ rest)
        outPath).1 = Except.error ConvError.corruptRecordError ∧
    dictGet (create_ncfile fs
        (natToBytes4 n ++ payload ++ natToBytes4 t ++ rest) outPath).2
      outPath = none := by
  simp only [List.append_assoc]
  have h4n : (natToBytes4 n).length = 4 := rfl
  have h4t : (natToBytes4 t).length = 4 := rfl
  have hne0 : natToBytes4 n ++ (payload ++ (natToBytes4 t ++ rest)) ≠ [] := by
    simp [natToBytes4]
  have htake :
      (natToBytes4 n ++ (payload ++ (natToBytes4 t ++ rest))).take 4 =
        natToBytes4 n := by
    have h := List.take_left (natToBytes4 n) (payload ++ (natToBytes4 t ++ rest))
    rw [h4n] at h
    exact h
  have hdrop :
      (natToBytes4 n ++ (payload ++ (natToBytes4 t ++ rest))).drop 4 =
        payload ++ (natToBytes4 t ++ rest) := by
    have h := List.drop_left (natToBytes4 n) (payload ++ (natToBytes4 t ++ rest))
    rw [h4n] at h
    exact h
  have hsl : (natToBytes4 n ++ (payload ++ (natToBytes4 t ++ rest))).length =
      4 + (payload ++ (natToBytes4 t ++ rest)).length := by
    rw [List.length_append, h4n]
  have hdl : (payload ++ (natToBytes4 t ++ rest)).length =
      n + (4 + rest.length) := by
    rw [List.length_append, List.length_append, h4t, hlen]
  have hbn :
      bytesToNat
        ((natToBytes4 n ++ (payload ++ (natToBytes4 t ++ rest))).take 4) =
      n := by
    rw [htake]
    exact bytesToNat_natToBytes4 n hn
  have hd2 : (payload ++ (natToBytes4 t ++ rest)).drop n =
      natToBytes4 t ++ rest := by
    have h := List.drop_left payload (natToBytes4 t ++ rest)
    rw [hlen] at h
    exact h
  have hd3 : (natToBytes4 t ++ rest).take 4 = natToBytes4 t := by
    have h := List.take_left (natToBytes4 t) rest
    rw [h4t] at h
    exact h
  have hrr : read_record (natToBytes4 n ++ (payload ++ (natToBytes4 t ++ rest))) =
      Except.error ConvError.corruptRecordError := by
    unfold read_record
    rw [if_neg hne0, hbn, hdrop, hd2, hd3,
      bytesToNat_natToBytes4 t ht, hdl]
    rw [if_neg (by omega), if_neg (by omega), if_neg hne]
  refine ⟨hrr, ?_, ?_⟩
  · unfold create_ncfile
    rw [decodeAll_error _ _ hne0 hrr]
  · unfold create_ncfile
    rw [decodeAll_error _ _ hne0 hrr]
    exact hout

/-- Concrete instantiation of `truncated_record_corrupt`: a record with
payload `[7, 9]`, length prefix 2 and altered trailing length 3. -/
theorem truncated_record_corrupt_witness :
    ([7, 9] : List Nat).length = 2 ∧ (2 : Nat) < 2 ^ 32 ∧
    (3 : Nat) < 2 ^ 32 ∧ (3 : Nat) ≠ 2 ∧
    dictGet ([] : FS) "out.nc" = none ∧
    (read_record (natToBytes4 2 ++ [7, 9] ++ natToBytes4 3 ++ []) =
      Except.error ConvError.corruptRecordError ∧
    (create_ncfile [] (natToBytes4 2 ++ [7, 9] ++ natToBytes4 3 ++ [])
        "out.nc").1 = Except.error ConvError.corruptRecordError ∧
    dictGet (create_ncfile []
        (natToBytes4 2 ++ [7, 9] ++ natToBytes4 3 ++ []) "out.nc").2
      "out.nc" = none) :=
  ⟨by decide, by decide, by decide, by decide, by decide,
   truncated_record_corrupt 2 3 [7, 9] [] [] "out.nc" (by decide)
     (by decide) (by decide) (by decide) (by decide)⟩
